import Mathlib

/-!
Shallow embedding of the Game of Life engine in `src/game_of_life.py`
(`class GameOfLife`): configuration, state store, neighbor counting and the
sparse generation-advance algorithm, together with theorems checking the
natural-language specification against it.

Python `set[tuple[int,int]]` is modelled as `Finset (Int × Int)`; Python's
`%` on `int` with a positive modulus agrees with `Int.emod` (Lean's `%` on
`Int`), both returning a value in `[0, m)`.  The dynamic typing of the
`set_state` input and of the `wrap` flag is modelled by small inductive
types of "loose" values.
-/

set_option maxRecDepth 8000

namespace GoL

/-- Engine record: the fields set by `GameOfLife.__init__`
(`self.width`, `self.height`, `self.wrap`, `self.live_cells`). -/
structure GameOfLife where
  width : Int
  height : Int
  wrap : Bool
  live_cells : Finset (Int × Int)
  deriving DecidableEq

/-- Error kinds of the engine, named as in the specification:
`invalidDimension` is the `ValueError` of `__init__`, `invalidConfiguration`
the `TypeError` of `__init__`, `invalidCellSpecification` the `ValueError`
of `set_state`. -/
inductive GolError where
  | invalidDimension
  | invalidConfiguration
  | invalidCellSpecification
  deriving DecidableEq

/-- A loosely-typed `wrap` argument: a Python `bool`, or a value of any
other runtime type (`isinstance(wrap, bool)` fails). -/
inductive WrapArg where
  | bool : Bool → WrapArg
  | nonbool : WrapArg
  deriving DecidableEq

/-- A loosely-typed element of a Python value: an `int`, or anything else. -/
inductive PyVal where
  | int : Int → PyVal
  | other : PyVal
  deriving DecidableEq

/-- A loosely-typed entry of the `set_state` input: a Python tuple of
loose values, or a non-tuple value. -/
inductive PyItem where
  | tuple : List PyVal → PyItem
  | nontuple : PyItem
  deriving DecidableEq

/-- The well-formedness test of `set_state`:
`isinstance(item, tuple) and len(item) == 2 and all(isinstance(v, int) for v in item)`,
returning the two components on success. -/
def toCell : PyItem → Option (Int × Int)
  | .tuple [.int x, .int y] => some (x, y)
  | _ => none

/-- `GameOfLife.__init__(width, height, wrap)`: dimensions are checked
first (`ValueError`), then the type of the `wrap` flag (`TypeError`). -/
def GameOfLife.init (width height : Int) (wrap : WrapArg) :
    Except GolError GameOfLife :=
  if width ≤ 0 ∨ height ≤ 0 then .error .invalidDimension
  else
    match wrap with
    | .nonbool => .error .invalidConfiguration
    | .bool b => .ok ⟨width, height, b, ∅⟩

/-- The body of the `set_state` loop for one valid coordinate: with wrapping
it is normalized modulo width/height and kept; without wrapping it is kept
exactly when it lies in `[0,width) × [0,height)`. -/
def GameOfLife.normalizeCell (g : GameOfLife) (c : Int × Int) :
    Option (Int × Int) :=
  if g.wrap then some (c.1 % g.width, c.2 % g.height)
  else if 0 ≤ c.1 ∧ c.1 < g.width ∧ 0 ≤ c.2 ∧ c.2 < g.height then some c
  else none

/-- The `set_state` loop over the input collection: a malformed entry
raises (`invalidCellSpecification`); otherwise the normalized coordinates
are accumulated into the fresh set `normalized`. -/
def GameOfLife.normalizeItems (g : GameOfLife) :
    List PyItem → Except GolError (Finset (Int × Int))
  | [] => .ok ∅
  | item :: rest =>
    match toCell item with
    | none => .error .invalidCellSpecification
    | some c =>
      match g.normalizeItems rest with
      | .error e => .error e
      | .ok s =>
        match g.normalizeCell c with
        | some c' => .ok (insert c' s)
        | none => .ok s

/-- `GameOfLife.set_state`: on success the live-cell set is replaced
wholesale by the normalized set (`self.live_cells = normalized` runs only
after the whole loop finished). -/
def GameOfLife.set_state (g : GameOfLife) (items : List PyItem) :
    Except GolError GameOfLife :=
  match g.normalizeItems items with
  | .error e => .error e
  | .ok s => .ok { g with live_cells := s }

/-- The state a caller observes after calling `set_state`: the new engine
on success, the untouched engine when the call raised. -/
def GameOfLife.trySetState (g : GameOfLife) (items : List PyItem) :
    GameOfLife :=
  match g.set_state items with
  | .ok g' => g'
  | .error _ => g

/-- `GameOfLife.get_state`: a defensive copy of the live-cell set; in the
pure model the copy is the value itself. -/
def GameOfLife.get_state (g : GameOfLife) : Finset (Int × Int) :=
  g.live_cells

/-- The eight neighbor offsets, in the iteration order of
`_get_neighbors_count` (`dx` outer, `dy` inner, `(0,0)` skipped). -/
def neighborOffsets : List (Int × Int) :=
  [(-1, -1), (-1, 0), (-1, 1), (0, -1), (0, 1), (1, -1), (1, 0), (1, 1)]

/-- All nine offsets, in the iteration order of the candidate-collection
loop of `step` (which does not skip `(0,0)`). -/
def allOffsets : List (Int × Int) :=
  [(-1, -1), (-1, 0), (-1, 1), (0, -1), (0, 0), (0, 1), (1, -1), (1, 0), (1, 1)]

/-- `GameOfLife._get_neighbors_count(x, y)`: over the eight offsets, with
wrapping the coordinate `((x+dx+width) % width, (y+dy+height) % height)` is
always membership-tested; without wrapping an out-of-range coordinate is
skipped (`continue`). -/
def GameOfLife._get_neighbors_count (g : GameOfLife) (x y : Int) : Nat :=
  neighborOffsets.countP fun d =>
    if g.wrap then
      decide (((x + d.1 + g.width) % g.width,
               (y + d.2 + g.height) % g.height) ∈ g.live_cells)
    else
      let nx := x + d.1
      let ny := y + d.2
      if nx < 0 ∨ nx ≥ g.width ∨ ny < 0 ∨ ny ≥ g.height then false
      else decide ((nx, ny) ∈ g.live_cells)

/-- The coordinates the candidate-collection loop of `step` adds for one
live cell `c`: all nine offsets, wrapped when `wrap` is set, and filtered
to the grid range otherwise. -/
def GameOfLife.targets (g : GameOfLife) (c : Int × Int) :
    Finset (Int × Int) :=
  (allOffsets.filterMap fun d =>
    if g.wrap then
      some ((c.1 + d.1 + g.width) % g.width, (c.2 + d.2 + g.height) % g.height)
    else
      let nx := c.1 + d.1
      let ny := c.2 + d.2
      if 0 ≤ nx ∧ nx < g.width ∧ 0 ≤ ny ∧ ny < g.height then some (nx, ny)
      else none).toFinset

/-- `potential_cells` of `step`: the current live cells together with
every coordinate the candidate-collection loop adds. -/
def GameOfLife.potential_cells (g : GameOfLife) : Finset (Int × Int) :=
  g.live_cells ∪ g.live_cells.biUnion g.targets

/-- The per-candidate Conway rule of `step`, evaluated against the frozen
pre-step set `g.live_cells`. -/
def GameOfLife.lives (g : GameOfLife) (c : Int × Int) : Bool :=
  let count := g._get_neighbors_count c.1 c.2
  let is_alive := decide (c ∈ g.live_cells)
  (is_alive && (count == 2 || count == 3)) || (!is_alive && count == 3)

/-- `GameOfLife.step`: the next generation is the set of candidates the
rule admits; it replaces `live_cells` wholesale. -/
def GameOfLife.step (g : GameOfLife) : GameOfLife :=
  { g with live_cells := g.potential_cells.filter fun c => g.lives c = true }

/-- The full grid `[0,width) × [0,height)` as a finite set. -/
def GameOfLife.grid (g : GameOfLife) : Finset (Int × Int) :=
  Finset.Ico 0 g.width ×ˢ Finset.Ico 0 g.height

/-- The range invariant: every stored live cell lies on the grid. -/
def GameOfLife.Invariant (g : GameOfLife) : Prop :=
  ∀ c ∈ g.live_cells, c ∈ g.grid

instance (g : GameOfLife) : Decidable g.Invariant := by
  unfold GameOfLife.Invariant; infer_instance

instance {ε : Type u} {α : Type v} [DecidableEq ε] [DecidableEq α] :
    DecidableEq (Except ε α)
  | .ok x, .ok y =>
    if h : x = y then .isTrue (by rw [h])
    else .isFalse fun hc => h (Except.ok.inj hc)
  | .error e, .error f =>
    if h : e = f then .isTrue (by rw [h])
    else .isFalse fun hc => h (Except.error.inj hc)
  | .ok _, .error _ => .isFalse fun hc => Except.noConfusion hc
  | .error _, .ok _ => .isFalse fun hc => Except.noConfusion hc

/-! ### The naive advance and the spec's neighbor count -/

/-- Modelled from the spec (§4.4): the naive advance that applies the rule
to every one of the width×height grid cells. -/
def GameOfLife.naive_next (g : GameOfLife) : Finset (Int × Int) :=
  g.grid.filter fun c => g.lives c = true

/-- The spec's offset set (§4.3): `(Δx,Δy) ∈ {−1,0,1}²` excluding `(0,0)`. -/
def offsetRange : Finset (Int × Int) :=
  (({-1, 0, 1} : Finset Int) ×ˢ ({-1, 0, 1} : Finset Int)).erase (0, 0)

/-- Modelled from the spec (§4.3): for each offset, Toroidal mode wraps the
coordinate modularly on both axes and always membership-tests it; Bounded
mode skips an out-of-range coordinate; the count is the number of resulting
coordinates that are live. -/
def spec_neighbors_count (g : GameOfLife) (x y : Int) : Nat :=
  (offsetRange.filter fun d =>
    (g.wrap = true ∧ ((x + d.1) % g.width, (y + d.2) % g.height) ∈ g.live_cells) ∨
    (g.wrap = false ∧ 0 ≤ x + d.1 ∧ x + d.1 < g.width ∧
      0 ≤ y + d.2 ∧ y + d.2 < g.height ∧ (x + d.1, y + d.2) ∈ g.live_cells)).card

/-! ### Order-independent construction of the next generation -/

/-- The next generation built by one explicit iteration order over the
candidates: each candidate the rule admits is inserted. -/
def build_next (g : GameOfLife) : List (Int × Int) → Finset (Int × Int)
  | [] => ∅
  | c :: rest =>
    if g.lives c then insert c (build_next g rest) else build_next g rest

/-! ### Concrete fixtures -/

/-- A horizontal blinker on the 10×10 torus of the test suite would work
as well; a 5×5 torus keeps the decidable evaluations small. -/
def gBlinker : GameOfLife := ⟨5, 5, true, {(1, 1), (2, 1), (3, 1)}⟩

/-- The fully populated 3×3 grid. -/
def full3 : Finset (Int × Int) := Finset.Ico (0 : Int) 3 ×ˢ Finset.Ico (0 : Int) 3

/-- The fully populated 10×10 grid. -/
def fullGrid10 : Finset (Int × Int) :=
  Finset.Ico (0 : Int) 10 ×ˢ Finset.Ico (0 : Int) 10

/-- The load-state normalization example of the spec, as loose input items:
`{(-1,-1), (5,5), (6,-2), (2,2)}`. -/
def exItems : List PyItem :=
  [.tuple [.int (-1), .int (-1)], .tuple [.int 5, .int 5],
   .tuple [.int 6, .int (-2)], .tuple [.int 2, .int 2]]

/-- The expected stored set for `exItems` on a `(5,5,Toroidal)` engine. -/
def exStored : Finset (Int × Int) := {(4, 4), (0, 0), (1, 3), (2, 2)}

/-- A single live cell on a 2×2 torus. -/
def gDet : GameOfLife := ⟨2, 2, true, {(0, 0)}⟩

/-- A well-formed coordinate, encoded as a loose `set_state` input item. -/
def encodeCell (c : Int × Int) : PyItem := .tuple [.int c.1, .int c.2]

/-! ### Arithmetic helpers for modular wraparound -/

lemma wrap_cancel (w a b : Int) (ha : 0 ≤ a) (ha' : a < w) :
    ((a + b + w) % w + (-b) + w) % w = a := by
  calc ((a + b + w) % w + (-b) + w) % w
      = ((a + b + w) % w + ((-b) + w)) % w := by rw [add_assoc]
    _ = ((a + b + w) + ((-b) + w)) % w := Int.emod_add_emod _ _ _
    _ = (a + w * 2) % w := by congr 1; ring
    _ = a % w := Int.add_mul_emod_self_left a w 2
    _ = a := Int.emod_eq_of_lt ha ha'

/-! ### Basic membership characterizations -/

lemma mem_grid_iff (g : GameOfLife) (c : Int × Int) :
    c ∈ g.grid ↔ 0 ≤ c.1 ∧ c.1 < g.width ∧ 0 ≤ c.2 ∧ c.2 < g.height := by
  simp only [GameOfLife.grid, Finset.mem_product, Finset.mem_Ico]
  tauto

lemma lives_iff (g : GameOfLife) (c : Int × Int) :
    g.lives c = true ↔
      ((c ∈ g.live_cells ∧
          (g._get_neighbors_count c.1 c.2 = 2 ∨ g._get_neighbors_count c.1 c.2 = 3)) ∨
       (c ∉ g.live_cells ∧ g._get_neighbors_count c.1 c.2 = 3)) := by
  simp [GameOfLife.lives]

lemma mem_step_live (g : GameOfLife) (c : Int × Int) :
    c ∈ g.step.live_cells ↔ c ∈ g.potential_cells ∧ g.lives c = true := by
  simp [GameOfLife.step, Finset.mem_filter]

lemma mem_targets_wrap (g : GameOfLife) (hw : g.wrap = true) (t c : Int × Int) :
    c ∈ g.targets t ↔ ∃ d ∈ allOffsets,
      c = ((t.1 + d.1 + g.width) % g.width, (t.2 + d.2 + g.height) % g.height) := by
  simp only [GameOfLife.targets, List.mem_toFinset, List.mem_filterMap, hw, if_true,
    Option.some.injEq]
  constructor
  · rintro ⟨d, hd, rfl⟩; exact ⟨d, hd, rfl⟩
  · rintro ⟨d, hd, rfl⟩; exact ⟨d, hd, rfl⟩

lemma mem_targets_bounded (g : GameOfLife) (hw : g.wrap = false) (t c : Int × Int) :
    c ∈ g.targets t ↔ (∃ d ∈ allOffsets, c = (t.1 + d.1, t.2 + d.2)) ∧
      0 ≤ c.1 ∧ c.1 < g.width ∧ 0 ≤ c.2 ∧ c.2 < g.height := by
  simp only [GameOfLife.targets, List.mem_toFinset, List.mem_filterMap, hw, if_false,
    Bool.false_eq_true]
  constructor
  · rintro ⟨d, hd, hsome⟩
    split at hsome
    · rename_i hrange
      rcases Option.some.inj hsome with rfl
      exact ⟨⟨d, hd, rfl⟩, hrange⟩
    · exact absurd hsome (by simp)
  · rintro ⟨⟨d, hd, rfl⟩, hrange⟩
    exact ⟨d, hd, by simp only [if_pos hrange]⟩

lemma neg_mem_allOffsets {d : Int × Int} (hd : d ∈ neighborOffsets) :
    (-d.1, -d.2) ∈ allOffsets := by
  fin_cases hd <;> decide

/-! ### The candidate set stays on the grid and captures every cell the
rule could make live -/

lemma targets_subset_grid (g : GameOfLife) (hw : 0 < g.width) (hh : 0 < g.height)
    (t : Int × Int) : g.targets t ⊆ g.grid := by
  intro c hc
  rw [mem_grid_iff]
  rcases Bool.eq_false_or_eq_true g.wrap with h | h
  · obtain ⟨d, _, rfl⟩ := (mem_targets_wrap g h t c).mp hc
    exact ⟨Int.emod_nonneg _ (by omega), Int.emod_lt_of_pos _ hw,
      Int.emod_nonneg _ (by omega), Int.emod_lt_of_pos _ hh⟩
  · exact ((mem_targets_bounded g h t c).mp hc).2

lemma potential_subset_grid (g : GameOfLife) (hw : 0 < g.width) (hh : 0 < g.height)
    (hinv : g.Invariant) : g.potential_cells ⊆ g.grid := by
  intro c hc
  rcases Finset.mem_union.mp hc with h | h
  · exact hinv c h
  · obtain ⟨t, _, hct⟩ := Finset.mem_biUnion.mp h
    exact targets_subset_grid g hw hh t hct

/-- The per-offset test of `_get_neighbors_count`, as a Boolean predicate. -/
lemma count_eq_countP (g : GameOfLife) (x y : Int) :
    g._get_neighbors_count x y = neighborOffsets.countP fun d =>
      if g.wrap then
        decide (((x + d.1 + g.width) % g.width,
                 (y + d.2 + g.height) % g.height) ∈ g.live_cells)
      else
        if x + d.1 < 0 ∨ x + d.1 ≥ g.width ∨ y + d.2 < 0 ∨ y + d.2 ≥ g.height then false
        else decide ((x + d.1, y + d.2) ∈ g.live_cells) := rfl

lemma count_pos_mem_potential (g : GameOfLife) (c : Int × Int) (hc : c ∈ g.grid)
    (hpos : 0 < g._get_neighbors_count c.1 c.2) : c ∈ g.potential_cells := by
  rw [count_eq_countP, List.countP_pos_iff] at hpos
  obtain ⟨d, hd, hpd⟩ := hpos
  rw [mem_grid_iff] at hc
  rcases Bool.eq_false_or_eq_true g.wrap with h | h
  · rw [if_pos (by simp [h])] at hpd
    have ht : ((c.1 + d.1 + g.width) % g.width,
        (c.2 + d.2 + g.height) % g.height) ∈ g.live_cells := of_decide_eq_true hpd
    refine Finset.mem_union_right _ (Finset.mem_biUnion.mpr ⟨_, ht, ?_⟩)
    rw [mem_targets_wrap g h]
    refine ⟨(-d.1, -d.2), neg_mem_allOffsets hd, ?_⟩
    rw [Prod.ext_iff]
    constructor
    · simp only
      rw [wrap_cancel g.width c.1 d.1 hc.1 hc.2.1]
    · simp only
      rw [wrap_cancel g.height c.2 d.2 hc.2.2.1 hc.2.2.2]
  · rw [if_neg (by simp [h])] at hpd
    split at hpd
    · exact absurd hpd (by simp)
    · rename_i hrange
      have ht : (c.1 + d.1, c.2 + d.2) ∈ g.live_cells := of_decide_eq_true hpd
      refine Finset.mem_union_right _ (Finset.mem_biUnion.mpr ⟨_, ht, ?_⟩)
      rw [mem_targets_bounded g h]
      refine ⟨⟨(-d.1, -d.2), neg_mem_allOffsets hd, ?_⟩, hc.1, hc.2.1, hc.2.2.1, hc.2.2.2⟩
      simp only; rw [Prod.ext_iff]; constructor <;> (simp only; ring)

/-! ### The state-loading loop -/

lemma normalizeItems_error_iff (g : GameOfLife) (items : List PyItem)
    (e : GolError) :
    g.normalizeItems items = .error e ↔
      e = .invalidCellSpecification ∧ ∃ it ∈ items, toCell it = none := by
  induction items with
  | nil => simp [GameOfLife.normalizeItems]
  | cons it rest ih =>
    cases hit : toCell it with
    | none =>
      simp only [GameOfLife.normalizeItems, hit, List.mem_cons]
      constructor
      · intro h
        exact ⟨(Except.error.inj h).symm, it, Or.inl rfl, hit⟩
      · rintro ⟨rfl, -⟩; rfl
    | some c =>
      cases hrest : g.normalizeItems rest with
      | error f =>
        rw [hrest] at ih
        simp only [GameOfLife.normalizeItems, hit, hrest, List.mem_cons]
        constructor
        · intro h
          obtain ⟨hf, w, hw, hnone⟩ := ih.mp (by rw [← Except.error.inj h])
          exact ⟨hf, w, Or.inr hw, hnone⟩
        · rintro ⟨rfl, w, hw | hw, hnone⟩
          · rw [hw, hit] at hnone; cases hnone
          · have hthis := ih.mpr ⟨rfl, w, hw, hnone⟩
            rw [Except.error.inj hthis]
      | ok s =>
        rw [hrest] at ih
        simp only [GameOfLife.normalizeItems, hit, hrest, List.mem_cons]
        constructor
        · intro h
          cases hnc : g.normalizeCell c <;> rw [hnc] at h <;> cases h
        · rintro ⟨rfl, w, hw | hw, hnone⟩
          · rw [hw, hit] at hnone; cases hnone
          · exact absurd (ih.mpr ⟨rfl, w, hw, hnone⟩) (by simp)

lemma normalizeItems_ok_of_valid (g : GameOfLife) (items : List PyItem)
    (hvalid : ∀ it ∈ items, toCell it ≠ none) :
    ∃ s, g.normalizeItems items = .ok s := by
  cases h : g.normalizeItems items with
  | ok s => exact ⟨s, rfl⟩
  | error e =>
    obtain ⟨-, w, hw, hnone⟩ := (normalizeItems_error_iff g items e).mp h
    exact absurd hnone (hvalid w hw)

lemma mem_normalizeItems (g : GameOfLife) (items : List PyItem)
    (s : Finset (Int × Int)) (h : g.normalizeItems items = .ok s)
    (c : Int × Int) :
    c ∈ s ↔ ∃ it ∈ items, ∃ c₀, toCell it = some c₀ ∧
      g.normalizeCell c₀ = some c := by
  induction items generalizing s with
  | nil =>
    rw [GameOfLife.normalizeItems] at h
    rw [← Except.ok.inj h]
    simp
  | cons it rest ih =>
    cases hit : toCell it with
    | none =>
      simp only [GameOfLife.normalizeItems, hit] at h
      exact Except.noConfusion h
    | some c₀ =>
      cases hrest : g.normalizeItems rest with
      | error f =>
        simp only [GameOfLife.normalizeItems, hit, hrest] at h
        exact Except.noConfusion h
      | ok s' =>
        have hmem := ih s' hrest
        cases hnc : g.normalizeCell c₀ with
        | some c' =>
          simp only [GameOfLife.normalizeItems, hit, hrest, hnc,
            Except.ok.injEq] at h
          rw [← h, Finset.mem_insert, hmem]
          simp only [List.mem_cons]
          constructor
          · rintro (rfl | ⟨w, hw, c₁, hc₁, hn⟩)
            · exact ⟨it, Or.inl rfl, c₀, hit, hnc⟩
            · exact ⟨w, Or.inr hw, c₁, hc₁, hn⟩
          · rintro ⟨w, hw | hw, c₁, hc₁, hn⟩
            · rw [hw, hit] at hc₁
              rw [← Option.some.inj hc₁] at hn
              rw [hnc] at hn
              exact Or.inl (Option.some.inj hn).symm
            · exact Or.inr ⟨w, hw, c₁, hc₁, hn⟩
        | none =>
          simp only [GameOfLife.normalizeItems, hit, hrest, hnc,
            Except.ok.injEq] at h
          rw [← h, hmem]
          simp only [List.mem_cons]
          constructor
          · rintro ⟨w, hw, c₁, hc₁, hn⟩
            exact ⟨w, Or.inr hw, c₁, hc₁, hn⟩
          · rintro ⟨w, hw | hw, c₁, hc₁, hn⟩
            · rw [hw, hit] at hc₁
              rw [← Option.some.inj hc₁] at hn
              rw [hnc] at hn; cases hn
            · exact ⟨w, hw, c₁, hc₁, hn⟩

lemma set_state_ok_iff (g : GameOfLife) (items : List PyItem)
    (g' : GameOfLife) :
    g.set_state items = .ok g' ↔
      ∃ s, g.normalizeItems items = .ok s ∧ g' = { g with live_cells := s } := by
  rw [GameOfLife.set_state]
  cases h : g.normalizeItems items with
  | error e => simp
  | ok s =>
    simp only [Except.ok.injEq]
    constructor
    · intro h'; exact ⟨s, rfl, h'.symm⟩
    · rintro ⟨s', hs', rfl⟩
      rw [hs']

lemma set_state_error_iff (g : GameOfLife) (items : List PyItem) (e : GolError) :
    g.set_state items = .error e ↔
      e = .invalidCellSpecification ∧ ∃ it ∈ items, toCell it = none := by
  rw [GameOfLife.set_state, ← normalizeItems_error_iff g items e]
  cases h : g.normalizeItems items <;> simp

/-! ### Characterizing one normalization step -/

lemma normalizeCell_eq_some_iff (g : GameOfLife) (c₀ c : Int × Int) :
    g.normalizeCell c₀ = some c ↔
      ((g.wrap = true ∧ c = (c₀.1 % g.width, c₀.2 % g.height)) ∨
       (g.wrap = false ∧ c = c₀ ∧
         0 ≤ c₀.1 ∧ c₀.1 < g.width ∧ 0 ≤ c₀.2 ∧ c₀.2 < g.height)) := by
  rcases Bool.eq_false_or_eq_true g.wrap with hb | hb
  · rw [GameOfLife.normalizeCell, if_pos (by simp [hb])]
    simp [hb, eq_comm]
  · rw [GameOfLife.normalizeCell, if_neg (by simp [hb])]
    split
    · rename_i hrange
      constructor
      · intro h
        exact Or.inr ⟨hb, (Option.some.inj h).symm, hrange⟩
      · rintro (⟨h, -⟩ | ⟨-, rfl, -⟩)
        · rw [hb] at h; cases h
        · rfl
    · rename_i hrange
      constructor
      · intro h; cases h
      · rintro (⟨h, -⟩ | ⟨-, rfl, hr⟩)
        · rw [hb] at h; cases h
        · exact absurd hr hrange

lemma normalizeCell_mem_grid (g : GameOfLife) (hw : 0 < g.width)
    (hh : 0 < g.height) (c₀ c : Int × Int)
    (h : g.normalizeCell c₀ = some c) : c ∈ g.grid := by
  rw [mem_grid_iff]
  rcases (normalizeCell_eq_some_iff g c₀ c).mp h with ⟨-, rfl⟩ | ⟨-, rfl, hr⟩
  · exact ⟨Int.emod_nonneg _ (by omega), Int.emod_lt_of_pos _ hw,
      Int.emod_nonneg _ (by omega), Int.emod_lt_of_pos _ hh⟩
  · exact hr

lemma normalizeCell_id_of_mem_grid (g : GameOfLife) (c : Int × Int)
    (hc : c ∈ g.grid) : g.normalizeCell c = some c := by
  rw [mem_grid_iff] at hc
  rcases Bool.eq_false_or_eq_true g.wrap with hb | hb
  · rw [GameOfLife.normalizeCell, if_pos (by simp [hb])]
    rw [Int.emod_eq_of_lt hc.1 hc.2.1, Int.emod_eq_of_lt hc.2.2.1 hc.2.2.2]
  · rw [GameOfLife.normalizeCell, if_neg (by simp [hb]), if_pos hc]

/-! ### A full toroidal board dies in one step -/

lemma count_eq_eight_of_full (g : GameOfLife) (hw : 0 < g.width)
    (hh : 0 < g.height) (hwrap : g.wrap = true) (hfull : g.live_cells = g.grid)
    (x y : Int) : g._get_neighbors_count x y = 8 := by
  rw [count_eq_countP]
  have hall : ∀ d ∈ neighborOffsets, (if g.wrap then
      decide (((x + d.1 + g.width) % g.width,
               (y + d.2 + g.height) % g.height) ∈ g.live_cells)
    else
      if x + d.1 < 0 ∨ x + d.1 ≥ g.width ∨ y + d.2 < 0 ∨ y + d.2 ≥ g.height then
        false
      else decide ((x + d.1, y + d.2) ∈ g.live_cells)) = true := by
    intro d _
    rw [if_pos (by simp [hwrap]), decide_eq_true_eq, hfull, mem_grid_iff]
    exact ⟨Int.emod_nonneg _ (by omega), Int.emod_lt_of_pos _ hw,
      Int.emod_nonneg _ (by omega), Int.emod_lt_of_pos _ hh⟩
  rw [List.countP_eq_length.mpr hall]
  rfl

lemma step_full_torus_empty (g : GameOfLife) (hw : 0 < g.width)
    (hh : 0 < g.height) (hwrap : g.wrap = true) (hfull : g.live_cells = g.grid) :
    g.step.live_cells = ∅ := by
  rw [Finset.eq_empty_iff_forall_not_mem]
  intro c hc
  obtain ⟨-, hlive⟩ := (mem_step_live g c).mp hc
  rw [lives_iff] at hlive
  have hcount := count_eq_eight_of_full g hw hh hwrap hfull c.1 c.2
  rcases hlive with ⟨-, h23⟩ | ⟨-, h3⟩ <;> omega

lemma emod_add_self_right (a w : Int) : (a + w) % w = a % w := by
  have h := Int.add_mul_emod_self_left a w 1
  rwa [mul_one] at h

lemma build_next_eq_filter (g : GameOfLife) (l : List (Int × Int)) :
    build_next g l = l.toFinset.filter fun c => g.lives c = true := by
  induction l with
  | nil => simp [build_next]
  | cons c rest ih =>
    rw [build_next, List.toFinset_cons]
    by_cases h : g.lives c = true
    · rw [if_pos h, ih, Finset.filter_insert, if_pos h]
    · rw [if_neg h, ih, Finset.filter_insert, if_neg h]

/-- Claim C4: the neighbor count examines exactly the eight offsets
`{-1,0,1}²` minus `(0,0)`; in Toroidal mode each offset's coordinate is
wrapped modularly on both axes and always membership-tested, in Bounded
mode an out-of-range coordinate is skipped; the result equals the spec's
count over that offset set and lies in `[0,8]`. -/
theorem neighbors_count_spec (g : GameOfLife) (x y : Int) :
    g._get_neighbors_count x y = spec_neighbors_count g x y ∧
    g._get_neighbors_count x y ≤ 8 := by
  constructor
  · rw [count_eq_countP, List.countP_eq_length_filter,
      ← List.toFinset_card_of_nodup (List.Nodup.filter _ (by decide)),
      List.toFinset_filter, (by decide : neighborOffsets.toFinset = offsetRange),
      spec_neighbors_count]
    congr 1
    apply Finset.filter_congr
    intro d hd
    rcases Bool.eq_false_or_eq_true g.wrap with hb | hb
    · rw [if_pos (by simp [hb]), decide_eq_true_eq,
        emod_add_self_right (x + d.1) g.width,
        emod_add_self_right (y + d.2) g.height]
      simp [hb]
    · rw [if_neg (by simp [hb])]
      split
      · rename_i hout
        constructor
        · intro h; cases h
        · rintro (⟨h, -⟩ | ⟨-, hr⟩)
          · rw [hb] at h; cases h
          · omega
      · rename_i hout
        rw [decide_eq_true_eq]
        constructor
        · intro hmem
          exact Or.inr ⟨hb, by omega, by omega, by omega, by omega, hmem⟩
        · rintro (⟨h, -⟩ | ⟨-, -, -, -, -, hmem⟩)
          · rw [hb] at h; cases h
          · exact hmem
  · rw [count_eq_countP]
    calc neighborOffsets.countP _ ≤ neighborOffsets.length := List.countP_le_length _
    _ = 8 := rfl

/-- Claim C1: a candidate coordinate evaluated during `step` is in the
next generation's live-cell set iff Conway's rule admits it — live with
neighbor count 2 or 3, or dead with neighbor count exactly 3 — where the
count is taken against the unmodified pre-step set `g.live_cells`. -/
theorem step_candidate_conway (g : GameOfLife) (c : Int × Int)
    (hc : c ∈ g.potential_cells) :
    c ∈ g.step.live_cells ↔
      ((c ∈ g.live_cells ∧
          (g._get_neighbors_count c.1 c.2 = 2 ∨ g._get_neighbors_count c.1 c.2 = 3)) ∨
       (c ∉ g.live_cells ∧ g._get_neighbors_count c.1 c.2 = 3)) := by
  rw [mem_step_live, lives_iff]
  simp [hc]

/-- Witness for C1: on the 5×5 toroidal blinker, the candidate `(2,1)` is
live with two neighbors and survives. -/
theorem step_candidate_conway_witness :
    ((2 : Int), (1 : Int)) ∈ gBlinker.step.live_cells :=
  (step_candidate_conway gBlinker (2, 1) (by decide)).mpr
    (Or.inl ⟨by decide, Or.inl (by decide)⟩)

/-- Claim C2: under the range invariant, the sparse advance over the
candidate set produces exactly the same next generation as the naive
advance over every grid cell, and every coordinate outside the candidate
set is absent from the next generation. -/
theorem step_eq_naive (g : GameOfLife) (hw : 0 < g.width) (hh : 0 < g.height)
    (hinv : g.Invariant) :
    g.step.live_cells = g.naive_next ∧
      ∀ c, c ∉ g.potential_cells → c ∉ g.step.live_cells := by
  constructor
  · apply Finset.ext
    intro c
    rw [mem_step_live, GameOfLife.naive_next, Finset.mem_filter]
    constructor
    · rintro ⟨hpot, hl⟩
      exact ⟨potential_subset_grid g hw hh hinv hpot, hl⟩
    · rintro ⟨hgrid, hl⟩
      refine ⟨?_, hl⟩
      rcases (lives_iff g c).mp hl with ⟨halive, -⟩ | ⟨-, h3⟩
      · exact Finset.mem_union_left _ halive
      · exact count_pos_mem_potential g c hgrid (by omega)
  · intro c hpot hmem
    exact hpot ((mem_step_live g c).mp hmem).1

/-- Witness for C2: the sparse and naive advances agree on the 5×5
toroidal blinker. -/
theorem step_eq_naive_witness :
    gBlinker.step.live_cells = gBlinker.naive_next :=
  (step_eq_naive gBlinker (by decide) (by decide) (by decide)).1

/-- Claim C3: every stored live cell satisfies `0 ≤ x < width` and
`0 ≤ y < height`: the set is empty after a successful construction, and
for a validly-dimensioned engine the invariant holds after every
successful `set_state` and is preserved by every `step`. -/
theorem range_invariant_preserved (w h : Int) (wa : WrapArg)
    (e g g' : GameOfLife) (items : List PyItem) :
    (GameOfLife.init w h wa = .ok e → e.Invariant) ∧
    (0 < g.width → 0 < g.height →
      ((g.set_state items = .ok g' → g'.Invariant) ∧
       (g.Invariant → g.step.Invariant))) := by
  refine ⟨?_, fun hw hh => ⟨?_, ?_⟩⟩
  · intro hok
    rw [GameOfLife.init.eq_def] at hok
    split at hok
    · cases hok
    · cases wa with
      | nonbool => cases hok
      | bool b =>
        rw [← Except.ok.inj hok]
        intro c hc
        cases hc
  · intro hok
    obtain ⟨s, hs, rfl⟩ := (set_state_ok_iff g items g').mp hok
    intro c hc
    obtain ⟨it, -, c₀, -, hnorm⟩ := (mem_normalizeItems g items s hs c).mp hc
    exact normalizeCell_mem_grid g hw hh c₀ c hnorm
  · intro hinv c hc
    obtain ⟨hpot, -⟩ := (mem_step_live g c).mp hc
    exact potential_subset_grid g hw hh hinv hpot

/-- Witness for C3: stepping the 5×5 toroidal blinker preserves the
range invariant. -/
theorem range_invariant_preserved_witness : gBlinker.step.Invariant :=
  ((range_invariant_preserved 5 5 (.bool true) gBlinker gBlinker gBlinker
    []).2 (by decide) (by decide)).2 (by decide)

/-- Counterexample to C5 as stated: a 10×10 toroidal engine holding the
fully populated 3×3 block does NOT advance to the empty set (its corner
cells have exactly three live neighbors and survive). -/
theorem full3_torus_step_ne_empty :
    (GameOfLife.mk 10 10 true full3).step.live_cells ≠ ∅ := by decide

/-- Claim C5 (amended): a fully populated 3×3 Bounded engine advances to
exactly the four corners, and a 10×10 Toroidal engine whose entire 10×10
grid is populated advances to the empty set (every cell has 8 neighbors).
-/
theorem full_grid_step :
    (GameOfLife.mk 3 3 false full3).step.live_cells =
      {((0 : Int), (0 : Int)), (2, 0), (0, 2), (2, 2)} ∧
    (GameOfLife.mk 10 10 true fullGrid10).step.live_cells = ∅ := by
  constructor
  · decide
  · exact step_full_torus_empty (GameOfLife.mk 10 10 true fullGrid10)
      (by decide) (by decide) rfl rfl

/-- Claim C6: for well-formed input, `set_state` succeeds and replaces
the live-cell set with the normalized input — modular reduction per axis
(non-negative even for negative inputs) in Toroidal mode, silent dropping
of out-of-range coordinates in Bounded mode — independent of the prior
set; in particular a `(5,5,Toroidal)` engine loading
`{(-1,-1),(5,5),(6,-2),(2,2)}` stores exactly `{(4,4),(0,0),(1,3),(2,2)}`.
-/
theorem set_state_normalization (g g' : GameOfLife) (items : List PyItem)
    (hw : 0 < g.width) (hh : 0 < g.height)
    (hvalid : ∀ it ∈ items, toCell it ≠ none) :
    (∃ gr, g.set_state items = .ok gr) ∧
    (g.set_state items = .ok g' →
      (g'.width = g.width ∧ g'.height = g.height ∧ g'.wrap = g.wrap ∧
       (∀ c, c ∈ g'.live_cells ↔ ∃ it ∈ items, ∃ c₀, toCell it = some c₀ ∧
         ((g.wrap = true ∧ c = (c₀.1 % g.width, c₀.2 % g.height)) ∨
          (g.wrap = false ∧ c = c₀ ∧
            0 ≤ c₀.1 ∧ c₀.1 < g.width ∧ 0 ≤ c₀.2 ∧ c₀.2 < g.height))) ∧
       (∀ c ∈ g'.live_cells,
         0 ≤ c.1 ∧ c.1 < g.width ∧ 0 ≤ c.2 ∧ c.2 < g.height))) ∧
    (GameOfLife.mk 5 5 true ∅).set_state exItems =
      .ok (GameOfLife.mk 5 5 true exStored) := by
  obtain ⟨s, hs⟩ := normalizeItems_ok_of_valid g items hvalid
  refine ⟨⟨{ g with live_cells := s }, by rw [GameOfLife.set_state, hs]⟩,
    ?_, by decide⟩
  intro hok
  obtain ⟨s', hs', rfl⟩ := (set_state_ok_iff g items g').mp hok
  rw [Except.ok.inj (hs ▸ hs' : (Except.ok s : Except GolError _) = .ok s')] at *
  refine ⟨rfl, rfl, rfl, ?_, ?_⟩
  · intro c
    rw [show ({ g with live_cells := s' } : GameOfLife).live_cells = s' from rfl,
      mem_normalizeItems g items s' hs' c]
    constructor
    · rintro ⟨it, hit, c₀, htc, hn⟩
      exact ⟨it, hit, c₀, htc, (normalizeCell_eq_some_iff g c₀ c).mp hn⟩
    · rintro ⟨it, hit, c₀, htc, hd⟩
      exact ⟨it, hit, c₀, htc, (normalizeCell_eq_some_iff g c₀ c).mpr hd⟩
  · intro c hc
    rw [show ({ g with live_cells := s' } : GameOfLife).live_cells = s' from rfl] at hc
    obtain ⟨it, -, c₀, -, hn⟩ := (mem_normalizeItems g items s' hs' c).mp hc
    rw [← mem_grid_iff]
    exact normalizeCell_mem_grid g hw hh c₀ c hn

/-- Witness for C6: the concrete `(5,5,Toroidal)` normalization example.
-/
theorem set_state_normalization_witness :
    (GameOfLife.mk 5 5 true ∅).set_state exItems =
      .ok (GameOfLife.mk 5 5 true exStored) :=
  (set_state_normalization (GameOfLife.mk 5 5 true ∅)
    (GameOfLife.mk 5 5 true exStored) exItems (by decide) (by decide)
    (by decide)).2.2

/-- Counterexample to C7 as stated: constructing with `width = 0` and a
malformed boundary-mode argument fails with `invalidDimension`, not with
`invalidConfiguration`, because the dimension check runs first — so
"fails with InvalidConfiguration exactly when the boundary-mode argument
is malformed" is false at this input. -/
theorem init_error_precedence_cex :
    GameOfLife.init 0 1 WrapArg.nonbool = .error .invalidDimension ∧
    ¬ GameOfLife.init 0 1 WrapArg.nonbool = .error .invalidConfiguration := by
  decide

/-- Claim C7 (amended): construction fails with `invalidDimension` iff
`width ≤ 0 ∨ height ≤ 0`; for positive dimensions it fails with
`invalidConfiguration` iff the boundary-mode argument is malformed;
`set_state` fails iff some entry is not a well-formed two-integer pair,
always with `invalidCellSpecification`; and a failed `set_state` leaves
the prior live-cell set untouched. -/
theorem error_handling (w h : Int) (wa : WrapArg) (g : GameOfLife)
    (items : List PyItem) :
    (GameOfLife.init w h wa = .error .invalidDimension ↔ w ≤ 0 ∨ h ≤ 0) ∧
    (0 < w → 0 < h →
      (GameOfLife.init w h wa = .error .invalidConfiguration ↔
        wa = .nonbool)) ∧
    ((∃ e, g.set_state items = .error e) ↔ ∃ it ∈ items, toCell it = none) ∧
    (g.set_state items = .error .invalidCellSpecification ↔
      ∃ it ∈ items, toCell it = none) ∧
    ((∃ it ∈ items, toCell it = none) → g.trySetState items = g) := by
  refine ⟨?_, ?_, ?_, ?_, ?_⟩
  · rw [GameOfLife.init.eq_def]
    split
    · rename_i hcond; simp [hcond]
    · rename_i hcond
      cases wa with
      | nonbool => simp [hcond]
      | bool b => simp [hcond]
  · intro hw hh
    rw [GameOfLife.init.eq_def, if_neg (by omega)]
    cases wa with
    | nonbool => simp
    | bool b => simp
  · constructor
    · rintro ⟨e, he⟩
      exact ((set_state_error_iff g items e).mp he).2
    · intro hex
      exact ⟨.invalidCellSpecification,
        (set_state_error_iff g items _).mpr ⟨rfl, hex⟩⟩
  · rw [set_state_error_iff]
    simp
  · intro hex
    have hst := (set_state_error_iff g items .invalidCellSpecification).mpr
      ⟨rfl, hex⟩
    rw [GameOfLife.trySetState.eq_def, hst]

/-- Witness for C7: with valid dimensions, a malformed wrap flag does
fail with `invalidConfiguration`. -/
theorem error_handling_witness :
    GameOfLife.init 1 1 WrapArg.nonbool = .error .invalidConfiguration :=
  ((error_handling 1 1 .nonbool gBlinker []).2.1 (by decide) (by decide)).mpr
    rfl

/-- Claim C8: the advance is deterministic and independent of the
iteration order of the underlying set: building the next generation along
any two enumerations of the candidate set gives the same result, equal to
`step`'s next generation. -/
theorem step_deterministic (g : GameOfLife) (l₁ l₂ : List (Int × Int))
    (h₁ : l₁.toFinset = g.potential_cells)
    (h₂ : l₂.toFinset = g.potential_cells) :
    build_next g l₁ = build_next g l₂ ∧
      build_next g l₁ = g.step.live_cells := by
  rw [build_next_eq_filter, build_next_eq_filter, h₁, h₂]
  exact ⟨rfl, rfl⟩

/-- Witness for C8: two opposite enumeration orders of the candidates of
a 2×2 torus produce the same next generation. -/
theorem step_deterministic_witness :
    build_next gDet [(0, 0), (0, 1), (1, 0), (1, 1)] =
      build_next gDet [(1, 1), (1, 0), (0, 1), (0, 0)] ∧
    build_next gDet [(0, 0), (0, 1), (1, 0), (1, 1)] = gDet.step.live_cells :=
  step_deterministic gDet [(0, 0), (0, 1), (1, 0), (1, 1)]
    [(1, 1), (1, 0), (0, 1), (0, 0)] (by decide) (by decide)

/-- Claim C9: loading the result of `get_state` back through `set_state`
leaves the engine unchanged — normalization is the identity on coordinates
already inside the grid, in both boundary modes. -/
theorem load_read_roundtrip (g : GameOfLife) (l : List (Int × Int))
    (hw : 0 < g.width) (hh : 0 < g.height) (hinv : g.Invariant)
    (hl : l.toFinset = g.get_state) :
    g.set_state (l.map encodeCell) = .ok g := by
  have hvalid : ∀ it ∈ l.map encodeCell, toCell it ≠ none := by
    intro it hit
    obtain ⟨c, -, rfl⟩ := List.mem_map.mp hit
    simp [encodeCell, toCell]
  obtain ⟨s, hs⟩ := normalizeItems_ok_of_valid g _ hvalid
  have hseq : s = g.live_cells := by
    apply Finset.ext
    intro c
    rw [mem_normalizeItems g _ s hs c]
    constructor
    · rintro ⟨it, hit, c₀, htc, hn⟩
      obtain ⟨c₁, hc₁, rfl⟩ := List.mem_map.mp hit
      have he : toCell (encodeCell c₁) = some c₁ := rfl
      rw [he] at htc
      rw [Option.some.inj htc] at hc₁
      have hmem : c₀ ∈ g.live_cells := by
        have hm := List.mem_toFinset.mpr hc₁
        rw [hl] at hm
        exact hm
      rw [normalizeCell_id_of_mem_grid g c₀ (hinv c₀ hmem)] at hn
      rw [← Option.some.inj hn]
      exact hmem
    · intro hc
      refine ⟨encodeCell c,
        List.mem_map.mpr ⟨c, by rw [← List.mem_toFinset, hl]; exact hc, rfl⟩,
        c, rfl, normalizeCell_id_of_mem_grid g c (hinv c hc)⟩
  rw [GameOfLife.set_state, hs, hseq]

/-- Witness for C9: the 5×5 toroidal blinker survives a read/load
round-trip unchanged. -/
theorem load_read_roundtrip_witness :
    gBlinker.set_state ([(1, 1), (2, 1), (3, 1)].map encodeCell) =
      .ok gBlinker :=
  load_read_roundtrip gBlinker [(1, 1), (2, 1), (3, 1)] (by decide) (by decide)
    (by decide) (by decide)

/-- Claim C10: on a 1×1 Toroidal engine with live set `{(0,0)}`, all
eight offsets wrap onto `(0,0)` itself, so the neighbor count of `(0,0)`
is 8 and one `step` yields the empty set. -/
theorem unit_torus_self_count :
    (GameOfLife.mk 1 1 true
      {((0 : Int), (0 : Int))})._get_neighbors_count 0 0 = 8 ∧
    (GameOfLife.mk 1 1 true {((0 : Int), (0 : Int))}).step.live_cells = ∅ := by
  decide

end GoL
